import Mathlib

/-
A shallow embedding of the dyers-cockpit-api route handlers, together with
theorems settling the behavioural claims about them.

Embedded code:
  app/api/ingest/route.ts            (POST: content-addressed dedup ingest)
  app/api/process/route.ts           (processBatch: claim + enrichment pipeline)
  app/api/sources/rss/report/route.ts (POST: transactional poll report)

Modelling conventions:
  JSON values are the inductive JValue; an absent (undefined) field is Option.none.
  Machine state is explicit: row lists stand for the tables, and every SQL
  statement of the routes becomes one Lean function on that state.
  External effects (HTTP fetch, model call) are oracles passed in as data.
  The sha256 hex digest is an abstract deterministic function parameter.
-/

set_option maxHeartbeats 1000000

namespace Cockpit

/-- JSON values, modelling the JavaScript data flowing through the routes. -/
inductive JValue where
  | null : JValue
  | bool : Bool → JValue
  | num : ℚ → JValue
  | str : String → JValue
  | arr : List JValue → JValue
  | obj : List (String × JValue) → JValue

/-- Whitespace characters recognised by the JavaScript trim as used by the routes
(the full JS set also has form feed and unicode spaces, which no route input uses). -/
def isJsSpace (c : Char) : Bool :=
  c == ' ' || c == '\t' || c == '\n' || c == '\r'

/-- JavaScript String.prototype.trim. -/
def jsTrim (s : String) : String :=
  String.mk (((s.data.dropWhile isJsSpace).reverse.dropWhile isJsSpace).reverse)

/-- JavaScript String.prototype.toLowerCase on the ASCII range the routes use. -/
def jsToLower (s : String) : String :=
  String.mk (s.data.map Char.toLower)

/-- Assoc-list lookup of a JSON object key: the object form of property access. -/
def objLookup (k : String) : List (String × JValue) → Option JValue
  | [] => none
  | (k₁, v) :: rest => if k₁ = k then some v else objLookup k rest

/-- Optional property access o?.k : available on objects, undefined (none) otherwise. -/
def JValue.getField (v : JValue) (k : String) : Option JValue :=
  match v with
  | .obj fs => objLookup k fs
  | _ => none

/-- JavaScript nullish coalescing a ?? d, where none models an absent field. -/
def nullishD (a : Option JValue) (d : JValue) : JValue :=
  match a with
  | none => d
  | some .null => d
  | some v => v

/-- JavaScript String() conversion on the values the routes stringify. Arrays and
objects, which no route contract feeds to String(), are approximated. -/
def jsToString : JValue → String
  | .null => "null"
  | .bool b => if b then "true" else "false"
  | .num q => toString q
  | .str s => s
  | .arr _ => ""
  | .obj _ => "[object Object]"

/-- Digit-sequence value: some n when every character is a decimal digit. -/
def digitsVal (cs : List Char) : Option Nat :=
  cs.foldl
    (fun acc c =>
      match acc with
      | none => none
      | some n => if c.isDigit then some (n * 10 + (c.toNat - 48)) else none)
    (some 0)

/-- JavaScript Number() conversion of a string: empty or all-whitespace gives 0,
a decimal integer literal gives its value, anything else NaN (none here).
Fractional, exponent and hex literals, unused by the routes, are not modelled. -/
def jsStringToNumber (s : String) : Option ℚ :=
  match (jsTrim s).data with
  | [] => some 0
  | '-' :: rest => if rest = [] then none else (digitsVal rest).map (fun n => -(n : ℚ))
  | '+' :: rest => if rest = [] then none else (digitsVal rest).map (fun n => (n : ℚ))
  | c :: rest => (digitsVal (c :: rest)).map (fun n => (n : ℚ))

/-- JavaScript Number() coercion on JSON values; none models NaN. Array and object
operands, never produced under the model-output contract, are approximated as NaN. -/
def jsNumber : JValue → Option ℚ
  | .null => some 0
  | .bool b => some (if b then 1 else 0)
  | .num q => some q
  | .str s => jsStringToNumber s
  | .arr _ => none
  | .obj _ => none

/-- The jsonb || operator restricted to objects, as used by the ingest merge:
shallow key union, right operand wins on key collision. -/
def jsonbConcat (a b : List (String × JValue)) : List (String × JValue) :=
  a.filter (fun p => (objLookup p.1 b).isNone) ++ b

/-- JavaScript object spread of fs followed by explicit assignment of key k. -/
def objSet (fs : List (String × JValue)) (k : String) (v : JValue) : List (String × JValue) :=
  fs.filter (fun p => p.1 != k) ++ [(k, v)]

/-- Raw item status enumeration of the raw_items table. -/
inductive Status where
  | new
  | processing
  | processed
  | error
deriving DecidableEq

/-- One row of the raw_items table (columns the routes read or write). -/
structure RawRow where
  id : Nat
  vertical : String
  url : String
  urlHash : String
  source : JValue
  sourceChannelId : JValue
  sourceMessageId : JValue
  authorId : JValue
  authorUsername : JValue
  metadata : List (String × JValue)
  status : Status
  createdAt : Nat
  processedAt : Option Nat
  lastError : Option String

/-
Ingest route: app/api/ingest/route.ts (POST).
-/

/-- The request body fields the ingest route reads. url and vertical are the
strings the route requires (it rejects the request before any store work when
either is missing), the remaining fields may be absent (none). -/
structure IngestBody where
  url : String
  vertical : String
  source : Option JValue
  sourceChannelId : Option JValue
  sourceMessageId : Option JValue
  authorId : Option JValue
  authorUsername : Option JValue
  metadata : Option JValue
  postedAt : Option JValue

/-- The JSON payload the ingest route answers with. -/
structure IngestOut where
  inserted : Bool
  id : Option Nat

/-- The raw_items store together with the id sequence backing the serial column. -/
structure IngestDB where
  rows : List RawRow
  nextId : Nat

/-- normVertical from the ingest route: trim + lowercase; the three known
verticals pass through, an empty string falls back to ree, any other
nonempty string passes through unchanged. -/
def normVertical (v : String) : String :=
  let s := jsToLower (jsTrim v)
  if s = "ree" ∨ s = "coal" ∨ s = "policy" then s
  else if s = "" then "ree" else s

/-- body.metadata when it is a non-null, non-array object, else empty
(mirrors the truthiness + typeof object + not-Array check of the route). -/
def incomingMetaOf (b : IngestBody) : List (String × JValue) :=
  match b.metadata with
  | some (.obj fs) => fs
  | _ => []

/-- The value injected under the posted_at key:
body.posted_at ?? incomingMeta.posted_at ?? null. -/
def postedAtValue (b : IngestBody) : JValue :=
  nullishD b.postedAt (nullishD (objLookup "posted_at" (incomingMetaOf b)) JValue.null)

/-- The metadata object the ingest route builds and binds as parameter 9:
spread of the incoming metadata with posted_at always assigned. -/
def ingestMetadata (b : IngestBody) : List (String × JValue) :=
  objSet (incomingMetaOf b) "posted_at" (postedAtValue b)

/-- The row the ingest insert creates: the values tuple of the insert statement
(ingest route lines 57..86), with the serial id and created_at defaults. -/
def insertedRow (hash : String → String) (now : Nat) (db : IngestDB) (b : IngestBody) :
    RawRow :=
  { id := db.nextId
    vertical := normVertical b.vertical
    url := jsTrim b.url
    urlHash := hash (jsTrim b.url)
    source := nullishD b.source (JValue.str "discord")
    sourceChannelId := nullishD b.sourceChannelId JValue.null
    sourceMessageId := nullishD b.sourceMessageId JValue.null
    authorId := nullishD b.authorId JValue.null
    authorUsername := nullishD b.authorUsername JValue.null
    metadata := ingestMetadata b
    status := Status.new
    createdAt := now
    processedAt := none
    lastError := none }

/-- POST of app/api/ingest/route.ts, lines 37..92, over an abstract deterministic
sha256 hex digest. The insert-or-merge CTE becomes: when no stored row carries
the computed url_hash, insert a fresh row (the on-conflict-do-nothing branch is
empty); otherwise leave the row count unchanged and merge the built metadata
into the matching row with jsonb concatenation, returning the existing id. now
supplies the created_at default. -/
def ingest (hash : String → String) (now : Nat) (db : IngestDB) (b : IngestBody) :
    IngestOut × IngestDB :=
  let urlHash := hash (jsTrim b.url)
  match db.rows.find? (fun r => r.urlHash == urlHash) with
  | none =>
      ({ inserted := true, id := some db.nextId },
       { rows := db.rows ++ [insertedRow hash now db b], nextId := db.nextId + 1 })
  | some r =>
      ({ inserted := false, id := some r.id },
       { rows := db.rows.map (fun x =>
            if x.urlHash == urlHash
            then { x with metadata := jsonbConcat x.metadata (ingestMetadata b) }
            else x)
         nextId := db.nextId })

/-
Process route: app/api/process/route.ts (processBatch).
-/

/-- One row of the processed_items table, holding the parameter tuple of the
insert in processBatch. relevanceScore is the JavaScript number computed by
Number(); none models NaN. -/
structure ProcessedRow where
  rawItemId : Nat
  vertical : String
  url : String
  title : JValue
  summary1 : String
  bullets : List JValue
  whyItMatters : JValue
  tags : JValue
  entities : JValue
  relevanceScore : Option ℚ
  visibility : JValue
  model : String

/-- The database state processBatch operates on. -/
structure DB where
  rawItems : List RawRow
  processedItems : List ProcessedRow

/-- The per-item entry of the results array processBatch returns. -/
structure ItemResult where
  id : Nat
  ok : Bool
  error : Option String

/-- The two external effects of one item: the content fetch (fetchText) and the
summarization call (callOpenAI, including its JSON parsing); an exception in
either is an Except.error carrying the thrown message. Both are keyed by the
item url, mirroring that the code derives the fetch input and the model input
from the picked row alone. -/
structure ItemEnv where
  fetch : Except String String
  modelCall : Except String JValue

/-- Per-row SQL update where id matches: the shape shared by the three
raw_items status writes of processBatch. -/
def updateRaw (l : List RawRow) (i : Nat) (f : RawRow → RawRow) : List RawRow :=
  l.map (fun r => if r.id = i then f r else r)

/-- update raw_items set status=processing where id=$1 (route.ts line 137). -/
def setProcessing (db : DB) (i : Nat) : DB :=
  { db with rawItems := updateRaw db.rawItems i (fun r => { r with status := Status.processing }) }

/-- update raw_items set status=error, last_error=$2 where id=$1
(route.ts lines 179..182). The write is unconditional: it carries no guard
on the current status. -/
def recordFailure (db : DB) (i : Nat) (msg : String) : DB :=
  { db with rawItems :=
      updateRaw db.rawItems i (fun r => { r with status := Status.error, lastError := some msg }) }

/-- update raw_items set status=processed, processed_at=now(), last_error=null
where id=$1 (route.ts lines 171..174). -/
def markProcessed (db : DB) (i : Nat) (now : Nat) : DB :=
  { db with rawItems :=
      updateRaw db.rawItems i (fun r =>
        { r with status := Status.processed, processedAt := some now, lastError := none }) }

/-- insert into processed_items ... on conflict (raw_item_id) do nothing
(route.ts lines 147..169): the row is appended only when no stored row already
carries the same raw_item_id. -/
def insertProcessed (db : DB) (p : ProcessedRow) : DB :=
  if db.processedItems.any (fun q => q.rawItemId == p.rawItemId) then db
  else { db with processedItems := db.processedItems ++ [p] }

/-- Array.isArray(out?.bullets) ? out.bullets : [] (route.ts line 143). -/
def rawBulletsOf (out : JValue) : List JValue :=
  match out.getField "bullets" with
  | some (.arr xs) => xs
  | _ => []

/-- String(out?.summary_1 ?? "").trim() (route.ts line 142). -/
def summaryOf (out : JValue) : String :=
  jsTrim (jsToString (nullishD (out.getField "summary_1") (JValue.str "")))

/-- The parameter tuple of the processed_items insert (route.ts lines 155..168),
built from the model output with the nullish defaults of the code: title,
why_it_matters null, tags empty array, entities empty object, relevance 0,
visibility public. No clamping, vocabulary filtering or further normalization
appears here, matching the source. -/
def processedRowOf (modelName : String) (rawId : Nat) (vertical url : String) (out : JValue) :
    ProcessedRow :=
  { rawItemId := rawId
    vertical := vertical
    url := url
    title := nullishD (out.getField "title") JValue.null
    summary1 := summaryOf out
    bullets := rawBulletsOf out
    whyItMatters := nullishD (out.getField "why_it_matters") JValue.null
    tags := nullishD (out.getField "tags") (JValue.arr [])
    entities := nullishD (out.getField "entities") (JValue.obj [])
    relevanceScore := jsNumber (nullishD (out.getField "relevance_score") (JValue.num 0))
    visibility := nullishD (out.getField "visibility") (JValue.str "public")
    model := modelName }

/-- The loop body of processBatch for one picked row (route.ts lines 131..184):
mark processing, fetch, call the model, validate summary and bullet count,
insert the processed row, mark processed; any thrown error is caught and
recorded with the unconditional error write. -/
def processItem (env : String → ItemEnv) (now : Nat) (modelName : String) (db : DB)
    (row : RawRow) : DB × ItemResult :=
  let rawId := row.id
  let vertical := jsToLower row.vertical
  let url := row.url
  let db1 := setProcessing db rawId
  match (env url).fetch with
  | .error msg => (recordFailure db1 rawId msg, { id := rawId, ok := false, error := some msg })
  | .ok _content =>
    match (env url).modelCall with
    | .error msg => (recordFailure db1 rawId msg, { id := rawId, ok := false, error := some msg })
    | .ok out =>
      let summary1 := summaryOf out
      let bullets := rawBulletsOf out
      if summary1 = "" then
        let msg := "Model output missing summary_1"
        (recordFailure db1 rawId msg, { id := rawId, ok := false, error := some msg })
      else if bullets.length ≠ 5 then
        let msg := "Model output bullets must be exactly 5"
        (recordFailure db1 rawId msg, { id := rawId, ok := false, error := some msg })
      else
        let db2 := insertProcessed db1 (processedRowOf modelName rawId vertical url out)
        let db3 := markProcessed db2 rawId now
        (db3, { id := rawId, ok := true, error := none })

/-- Stable insertion step of the created_at ordering. -/
def insertByCreated (r : RawRow) : List RawRow → List RawRow
  | [] => [r]
  | x :: xs => if r.createdAt < x.createdAt then r :: x :: xs else x :: insertByCreated r xs

/-- Stable sort by ascending created_at, one admissible realisation of the
order-by clause (SQL leaves equal keys unordered). -/
def sortByCreated (l : List RawRow) : List RawRow :=
  l.foldr insertByCreated []

/-- select id, vertical, url from raw_items where status=new order by created_at
asc limit $1 (route.ts lines 118..127). The select takes no row locks and
carries no for-update clause, matching the source. -/
def selectNewRows (db : DB) (limit : Nat) : List RawRow :=
  (sortByCreated (db.rawItems.filter (fun r => r.status == Status.new))).take limit

/-- The ids of the rows a processBatch invocation picks from a given state. -/
def pickedIds (db : DB) (limit : Nat) : List Nat :=
  (selectNewRows db limit).map (fun r => r.id)

/-- What one processBatch invocation returns and leaves behind. -/
structure BatchOut where
  db : DB
  picked : List RawRow
  results : List ItemResult

/-- The fold of the per-item loop over the database alone. -/
def runItems (env : String → ItemEnv) (now : Nat) (modelName : String) (db : DB)
    (rows : List RawRow) : DB :=
  rows.foldl (fun acc row => (processItem env now modelName acc row).1) db

/-- One iteration of the processBatch loop, threading the database and the
accumulated results array. -/
def batchStep (env : String → ItemEnv) (now : Nat) (modelName : String)
    (acc : DB × List ItemResult) (row : RawRow) : DB × List ItemResult :=
  let step := processItem env now modelName acc.1 row
  (step.1, acc.2 ++ [step.2])

/-- processBatch of app/api/process/route.ts, lines 117..188: select the batch,
then run the per-item loop, accumulating results. -/
def processBatch (env : String → ItemEnv) (now : Nat) (modelName : String) (db : DB)
    (limit : Nat) : BatchOut :=
  let picked := selectNewRows db limit
  let folded := picked.foldl (batchStep env now modelName) (db, [])
  { db := folded.1, picked := picked, results := folded.2 }

/-- Status of the first raw row carrying a given id, the view the SQL reads take. -/
def statusOf (db : DB) (i : Nat) : Option Status :=
  (db.rawItems.find? (fun r => r.id == i)).map (fun r => r.status)

/-- The first processed row stored for a given raw item id. -/
def processedFor (db : DB) (i : Nat) : Option ProcessedRow :=
  db.processedItems.find? (fun p => p.rawItemId == i)

/-- The picked-id pair of the interleaving of two concurrent processBatch
invocations in which both execute their initial select statement before either
performs any write. The select is the first database statement of processBatch
and takes no locks and no for-update clause, so this schedule is admissible for
every pair of concurrent calls; under it each call goes on to return exactly
the rows it selected here. -/
def concurrentSelectFirstPicks (db : DB) (limA limB : Nat) : List Nat × List Nat :=
  (pickedIds db limA, pickedIds db limB)

/-
Report route: app/api/sources/rss/report/route.ts (POST).
-/

/-- One row of the sources table (columns the report route writes). -/
structure SourceRow where
  id : Nat
  etag : Option String
  lastModified : Option String
  lastPolledAt : Option Nat
  lastError : Option String

/-- The state the report route touches: the sources table and the source_seen
table as a list of (source_id, item_key) pairs. -/
structure ReportDB where
  sources : List SourceRow
  seen : List (Nat × String)

/-- The request body after the route validation: source_id is the positive
finite number the route requires; etag, last_modified and last_error are the
typeof-string-else-null fields; seenKeys is the raw seen_keys value. -/
structure ReportBody where
  sourceId : Nat
  etag : Option String
  lastModified : Option String
  lastError : Option String
  seenKeys : Option JValue

/-- Which of the two statements inside the transaction throw, modelling a
storage fault during the report. -/
structure TxFault where
  updateFails : Bool
  insertFails : Bool

/-- A fault-free transaction. -/
def noFault : TxFault := { updateFails := false, insertFails := false }

/-- seen_keys normalization of the route (line 29..31): when the field is an
array, String each entry, keep the nonempty ones, cap at 200; else empty. -/
def normalizeSeenKeys (v : Option JValue) : List String :=
  match v with
  | some (.arr xs) => (((xs.map jsToString).filter (fun s => s ≠ "")).take 200)
  | _ => []

/-- update sources set last_polled_at=now(), etag=$2, last_modified=$3,
last_error=$4 where id=$1 (route lines 37..47). -/
def updateSource (db : ReportDB) (sid : Nat) (now : Nat)
    (etag lm le : Option String) : ReportDB :=
  { db with sources := db.sources.map (fun s =>
      if s.id = sid
      then { s with lastPolledAt := some now, etag := etag, lastModified := lm, lastError := le }
      else s) }

/-- insert into source_seen (source_id, item_key) select $1, k from unnest($2)
on conflict do nothing (route lines 49..60). Modelled from the spec: the
uniqueness of (source_id, item_key) backing the conflict clause lives in the
database schema, which is not part of src; the spec describes source_seen as a
set membership record, so a key already present, or repeated within the batch,
is inserted at most once. -/
def insertSeenKeys (db : ReportDB) (sid : Nat) (ks : List String) : ReportDB :=
  { db with seen := ks.foldl (fun acc k => if (sid, k) ∈ acc then acc else acc ++ [(sid, k)]) db.seen }

/-- POST of app/api/sources/rss/report/route.ts, lines 29..72. The begin /
commit / rollback block becomes: when either inner statement faults, the
returned state is the unchanged input state (rollback) and the call reports the
error; otherwise both writes are applied and the route answers with
seen = seenKeys.length, the length of the normalized submitted list. -/
def report (fault : TxFault) (now : Nat) (db : ReportDB) (b : ReportBody) :
    Except String Nat × ReportDB :=
  let seenKeys := normalizeSeenKeys b.seenKeys
  if fault.updateFails then (Except.error "update sources failed", db)
  else
    let db1 := updateSource db b.sourceId now b.etag b.lastModified b.lastError
    if fault.insertFails then (Except.error "insert source_seen failed", db)
    else (Except.ok seenKeys.length, insertSeenKeys db1 b.sourceId seenKeys)

/-
Spec-side definitions: these two follow the wording of the spec, not the
source, and are used only to state claims C7 and C8 as the spec writes them,
for comparison with what the source computes.
-/

/-- The closed tag vocabulary named by the spec and by the model prompt. -/
def tagVocabulary : List String :=
  ["Mining", "Concentrate", "MREC", "Separation", "Metal", "Magnet",
   "Recycling", "Policy", "Finance", "Other"]

/-- Modelled from the spec wording of claim C8 (stored tags are a nonempty set
of 1..8 entries matching the closed vocabulary case-insensitively); stated for
comparison with the persisted tags the source computes. -/
def specTagsValid : JValue → Prop
  | .arr xs =>
      xs ≠ [] ∧ xs.length ≤ 8 ∧
      ∀ x ∈ xs, ∃ s, x = JValue.str s ∧ ∃ v ∈ tagVocabulary, jsToLower s = jsToLower v
  | _ => False

/-- Modelled from the spec wording of claim C7: one bullet entry after trimming
and leading-marker stripping. -/
def specNormBullet (s : String) : String :=
  jsTrim (String.mk ((jsTrim s).data.dropWhile (fun c => c == '-' || c == '*' || c == '•')))

/-- Modelled from the spec wording of claim C7: the number of nonempty entries a
bullets array reduces to after trimming and leading-marker stripping. -/
def specBulletCount (bs : List JValue) : Nat :=
  ((bs.map (fun b => specNormBullet (jsToString b))).filter (fun s => s ≠ "")).length

/-
Concrete fixtures used by counterexamples and witnesses.
-/

/-- A raw item in status new, as left behind by a fresh ingest. -/
def rowNew : RawRow :=
  { id := 1
    vertical := "ree"
    url := "https://x.example/a"
    urlHash := "https://x.example/a"
    source := JValue.str "discord"
    sourceChannelId := JValue.null
    sourceMessageId := JValue.null
    authorId := JValue.null
    authorUsername := JValue.null
    metadata := [("posted_at", JValue.null)]
    status := Status.new
    createdAt := 0
    processedAt := none
    lastError := none }

/-- A database with one claimable row. -/
def dbNew : DB := { rawItems := [rowNew], processedItems := [] }

/-- The same raw item after a successful enrichment run. -/
def rowDone : RawRow := { rowNew with status := Status.processed, processedAt := some 5 }

/-- A database whose only raw item is already processed. -/
def dbDone : DB := { rawItems := [rowDone], processedItems := [] }

/-- An environment where the fetch succeeds and the model answers out for every url. -/
def envOf (out : JValue) : String → ItemEnv :=
  fun _ => { fetch := Except.ok "article content", modelCall := Except.ok out }

/-- Five nonempty bullet strings. -/
def fiveBullets : List JValue :=
  [JValue.str "b1", JValue.str "b2", JValue.str "b3", JValue.str "b4", JValue.str "b5"]

/-- A model output that is valid to the code and carries relevance_score 250. -/
def out250 : JValue :=
  JValue.obj
    [("summary_1", JValue.str "Summary sentence."),
     ("bullets", JValue.arr fiveBullets),
     ("relevance_score", JValue.num 250)]

/-- A model output whose bullets array has five entries, one of which trims to
the empty string: four entries in the sense of the spec normalization. -/
def outBulEmptyEntry : JValue :=
  JValue.obj
    [("summary_1", JValue.str "Summary sentence."),
     ("bullets", JValue.arr
        [JValue.str "alpha", JValue.str "beta", JValue.str "gamma",
         JValue.str "delta", JValue.str " "])]

/-- A model output whose bullets array has four entries. -/
def outBul4 : JValue :=
  JValue.obj
    [("summary_1", JValue.str "Summary sentence."),
     ("bullets", JValue.arr
        [JValue.str "alpha", JValue.str "beta", JValue.str "gamma", JValue.str "delta"])]

/-- A model output that is valid to the code and carries an empty tags array. -/
def outTagsEmpty : JValue :=
  JValue.obj
    [("summary_1", JValue.str "Summary sentence."),
     ("bullets", JValue.arr fiveBullets),
     ("tags", JValue.arr [])]

/-- A model output that is valid to the code and carries a tag outside the vocabulary. -/
def outTagsBanana : JValue :=
  JValue.obj
    [("summary_1", JValue.str "Summary sentence."),
     ("bullets", JValue.arr fiveBullets),
     ("tags", JValue.arr [JValue.str "banana"])]

/-- A source row not yet polled. -/
def srcRow1 : SourceRow :=
  { id := 1, etag := none, lastModified := none, lastPolledAt := none, lastError := none }

/-- A report store in which source 1 has already seen key k1. -/
def dbRepSeen : ReportDB := { sources := [srcRow1], seen := [(1, "k1")] }

/-- A report store with an empty seen set. -/
def dbRepEmpty : ReportDB := { sources := [srcRow1], seen := [] }

/-- A report body for source 1 submitting the given keys. -/
def repBody (ks : List String) : ReportBody :=
  { sourceId := 1
    etag := none
    lastModified := none
    lastError := none
    seenKeys := some (JValue.arr (ks.map JValue.str)) }

/-- A stored raw item from a first ingest, carrying attribution and metadata. -/
def ingPrior : RawRow :=
  { rowNew with
      metadata := [("posted_at", JValue.str "2026-01-01"), ("orig", JValue.str "first")] }

/-- An ingest store holding the first insert. -/
def dbIng : IngestDB := { rows := [ingPrior], nextId := 2 }

/-- A duplicate submission of the same url with fresh attribution and extra metadata. -/
def bDupIngest : IngestBody :=
  { url := "https://x.example/a"
    vertical := "ree"
    source := some (JValue.str "rss")
    sourceChannelId := none
    sourceMessageId := none
    authorId := some (JValue.str "someone-else")
    authorUsername := none
    metadata := some (JValue.obj [("extra", JValue.num 1)])
    postedAt := none }

/-- A duplicate submission of the same url with no metadata at all. -/
def bNoMeta : IngestBody :=
  { url := "https://x.example/a"
    vertical := "ree"
    source := none
    sourceChannelId := none
    sourceMessageId := none
    authorId := none
    authorUsername := none
    metadata := none
    postedAt := none }

/-- An ingest body whose url carries surrounding whitespace. -/
def bWs1 : IngestBody := { bNoMeta with url := " https://x.example/a " }

/-- The same url without the whitespace. -/
def bWs2 : IngestBody := { bNoMeta with url := "https://x.example/a" }

/-- The empty ingest store. -/
def dbIngEmpty : IngestDB := { rows := [], nextId := 1 }

/-
Generic helper lemmas.
-/

/-- find? commutes with a map that does not change the tested predicate. -/
theorem find?_map_eq {α : Type} (g : α → α) (p : α → Bool) (hp : ∀ r, p (g r) = p r)
    (l : List α) : (l.map g).find? p = (l.find? p).map g := by
  induction l with
  | nil => rfl
  | cons r rest ih =>
    by_cases h : p r = true
    · rw [List.map_cons, List.find?_cons_of_pos _ (by rw [hp r]; exact h),
        List.find?_cons_of_pos _ h]
      rfl
    · have h0 : p r = false := by simpa using h
      rw [List.map_cons, List.find?_cons_of_neg _ (by rw [hp r]; simp [h0]),
        List.find?_cons_of_neg _ (by simp [h0]), ih]

/-- Unfolding step of the jsonb object concatenation. -/
theorem jsonbConcat_cons (x : String × JValue) (rest b : List (String × JValue)) :
    jsonbConcat (x :: rest) b =
      if (objLookup x.1 b).isNone then x :: jsonbConcat rest b else jsonbConcat rest b := by
  simp only [jsonbConcat, List.filter_cons]
  split <;> simp_all

/-- Lookup through the jsonb concatenation: the right operand wins, the left
operand answers only for keys the right does not carry. -/
theorem objLookup_jsonbConcat (k : String) (a b : List (String × JValue)) :
    objLookup k (jsonbConcat a b) = (objLookup k b).or (objLookup k a) := by
  induction a with
  | nil =>
    show objLookup k b = (objLookup k b).or none
    cases objLookup k b <;> rfl
  | cons x rest ih =>
    obtain ⟨k1, v⟩ := x
    rw [jsonbConcat_cons]
    by_cases hb : (objLookup k1 b).isNone
    · rw [if_pos hb]
      by_cases hk : k1 = k
      · subst hk
        have hbn : objLookup k1 b = none := by simpa [Option.isNone_iff_eq_none] using hb
        simp [objLookup, hbn]
      · simp [objLookup, hk, ih]
    · rw [if_neg hb]
      by_cases hk : k1 = k
      · subst hk
        obtain ⟨w, hw⟩ : ∃ w, objLookup k1 b = some w := by
          cases hx : objLookup k1 b with
          | none => rw [hx] at hb; simp at hb
          | some w => exact ⟨w, rfl⟩
        simp [objLookup, hw, ih, Option.or]
      · simp [objLookup, hk, ih]

/-- Unfolding step of the object-set operation. -/
theorem objSet_cons (x : String × JValue) (rest : List (String × JValue)) (k : String)
    (v : JValue) :
    objSet (x :: rest) k v =
      if x.1 = k then objSet rest k v else x :: objSet rest k v := by
  simp only [objSet, List.filter_cons]
  split <;> simp_all [bne_iff_ne]

/-- Setting a key always makes it visible with the assigned value. -/
theorem objLookup_objSet_self (fs : List (String × JValue)) (k : String) (v : JValue) :
    objLookup k (objSet fs k v) = some v := by
  induction fs with
  | nil => simp [objSet, objLookup]
  | cons x rest ih =>
    rw [objSet_cons]
    by_cases hk : x.1 = k
    · rw [if_pos hk]; exact ih
    · rw [if_neg hk]
      simp [objLookup, hk, ih]

/-- Two successive conditional row updates on the same id fuse into one map. -/
theorem updateRaw_updateRaw (l : List RawRow) (i : Nat) (f g : RawRow → RawRow)
    (hf : ∀ r, (f r).id = r.id) :
    updateRaw (updateRaw l i f) i g = l.map (fun r => if r.id = i then g (f r) else r) := by
  unfold updateRaw
  rw [List.map_map]
  apply List.map_congr_left
  intro r _
  by_cases h : r.id = i
  · simp [Function.comp, h, hf r]
  · simp [Function.comp, h]

/-- A conditional row update on one id keeps the find?-by-id view of every id
present, and its isSome in particular. -/
theorem statusOf_updateRaw_isSome (db : DB) (i : Nat) (f : RawRow → RawRow)
    (hf : ∀ r, (f r).id = r.id) :
    (statusOf { db with rawItems := updateRaw db.rawItems i f } i).isSome
      = (statusOf db i).isSome := by
  have hmap := find?_map_eq (fun r => if r.id = i then f r else r) (fun r => r.id == i)
    (by intro r; by_cases hri : r.id = i <;> simp [hri, hf r]) db.rawItems
  simp only [statusOf, updateRaw, hmap]
  cases db.rawItems.find? (fun r => r.id == i) <;> simp

/-- The unconditional error write leaves the first row carrying the id with
status error, whatever its previous status was. -/
theorem statusOf_recordFailure (db : DB) (i : Nat) (msg : String)
    (h : (statusOf db i).isSome) :
    statusOf (recordFailure db i msg) i = some Status.error := by
  obtain ⟨r0, hr0⟩ : ∃ r0, db.rawItems.find? (fun r => r.id == i) = some r0 := by
    cases hx : db.rawItems.find? (fun r => r.id == i) with
    | none => rw [statusOf, hx] at h; simp at h
    | some r => exact ⟨r, rfl⟩
  have hid : r0.id = i := by simpa using List.find?_some hr0
  have hmap := find?_map_eq
    (fun r => if r.id = i then { r with status := Status.error, lastError := some msg } else r)
    (fun r => r.id == i)
    (by intro r; by_cases hri : r.id = i <;> simp [hri]) db.rawItems
  simp [statusOf, recordFailure, updateRaw, hmap, hr0, hid]

/-- CLAIM C2 (amended). The failure-recording write of processBatch
(update raw_items set status=error, last_error=$2 where id=$1) is
unconditional: for every database and every raw item present in it, recording
a failure leaves the item in status error, whatever status it had before —
including processed. The write carries no status guard, so processed is not a
terminal state as the claim asserts. -/
theorem C2_error_write_unconditional (db : DB) (i : Nat) (msg : String)
    (h : (statusOf db i).isSome) :
    statusOf (recordFailure db i msg) i = some Status.error :=
  statusOf_recordFailure db i msg h

/-- Witness for C2: a concrete database with one item, where the error write is
observed to produce status error. -/
theorem C2_error_write_unconditional_witness :
    (statusOf dbDone 1).isSome ∧
    statusOf (recordFailure dbDone 1 "boom") 1 = some Status.error :=
  ⟨by decide, C2_error_write_unconditional dbDone 1 "boom" (by decide)⟩

/-- COUNTEREXAMPLE to claim C2 as stated. The claim says the error-status write
takes effect only if the current status is not processed. Concretely: dbDone
holds item 1 with status processed; recording a late failure for item 1
changes its status to error, so the write did take effect on a processed item
and processed regressed to error. -/
theorem C2_processed_regresses_counterexample :
    statusOf dbDone 1 = some Status.processed ∧
    statusOf (recordFailure dbDone 1 "late fetch failure") 1 = some Status.error :=
  ⟨by decide, by decide⟩

/-
Claim C6: the seen count the report route returns.
-/

/-- The bookkeeping update never touches the seen set. -/
theorem seen_updateSource (db : ReportDB) (sid now : Nat) (etag lm le : Option String) :
    (updateSource db sid now etag lm le).seen = db.seen := rfl

/-- The conditional seen-key fold grows the set by at most one entry per key. -/
theorem seenFold_length_le (sid : Nat) :
    ∀ (ks : List String) (acc : List (Nat × String)),
      (ks.foldl (fun a k => if (sid, k) ∈ a then a else a ++ [(sid, k)]) acc).length
        ≤ acc.length + ks.length := by
  intro ks
  induction ks with
  | nil => intro acc; simp
  | cons k rest ih =>
    intro acc
    rw [List.foldl_cons, List.length_cons]
    by_cases h : (sid, k) ∈ acc
    · rw [if_pos h]
      have := ih acc
      omega
    · rw [if_neg h]
      have := ih (acc ++ [(sid, k)])
      rw [List.length_append, List.length_singleton] at this
      omega

/-- CLAIM C6 (amended). A successful report answers with the length of the
normalized submitted key list (String-converted entries, empties dropped,
capped at 200) — not with the number of newly recorded keys: the recorded
seen-set grows by at most that length, and can grow by strictly less when
keys were already present. -/
theorem C6_seen_count_is_submitted_count (now : Nat) (db : ReportDB) (b : ReportBody) :
    (report noFault now db b).1 = Except.ok (normalizeSeenKeys b.seenKeys).length ∧
    ((report noFault now db b).2).seen.length
      ≤ db.seen.length + (normalizeSeenKeys b.seenKeys).length := by
  constructor
  · rfl
  · show (insertSeenKeys (updateSource db b.sourceId now b.etag b.lastModified b.lastError)
        b.sourceId (normalizeSeenKeys b.seenKeys)).seen.length ≤ _
    simpa [insertSeenKeys, seen_updateSource] using
      seenFold_length_le b.sourceId (normalizeSeenKeys b.seenKeys) db.seen

/-- COUNTEREXAMPLE to claim C6 as stated. The claim says the returned seen
count equals the number of newly recorded keys. Concretely: source 1 has
already seen k1, and a report resubmitting exactly k1 answers seen = 1 while
the stored seen-set is unchanged, so zero keys were newly recorded. -/
theorem C6_seen_count_counterexample :
    (report noFault 3 dbRepSeen (repBody ["k1"])).1 = Except.ok 1 ∧
    ((report noFault 3 dbRepSeen (repBody ["k1"])).2).seen = dbRepSeen.seen :=
  ⟨rfl, rfl⟩

/-
Claims C4, C9, C10: the ingest route.
-/

/-- What a conflicting ingest does: inserted=false with the existing id, the
row count unchanged, and the conflicting row updated by the metadata-only
jsonb merge. -/
theorem ingest_dup_result (hash : String → String) (now : Nat) (db : IngestDB)
    (b : IngestBody) (r0 : RawRow)
    (hfind : db.rows.find? (fun r => r.urlHash == hash (jsTrim b.url)) = some r0) :
    (ingest hash now db b).1 = { inserted := false, id := some r0.id } ∧
    (ingest hash now db b).2.rows.length = db.rows.length ∧
    (ingest hash now db b).2.rows.find? (fun r => r.urlHash == hash (jsTrim b.url))
      = some { r0 with metadata := jsonbConcat r0.metadata (ingestMetadata b) } := by
  have hhash := List.find?_some hfind
  unfold ingest
  simp only [hfind]
  refine ⟨trivial, by simp, ?_⟩
  rw [find?_map_eq _ _ ?hp, hfind]
  case hp =>
    intro r
    by_cases hc : (r.urlHash == hash (jsTrim b.url)) = true
    · simp [hc]
    · simp [hc]
  · have heq : r0.urlHash = hash (jsTrim b.url) := by simpa using hhash
    simp [heq]

/-- CLAIM C4 (confirmed). When the ingest url collides with a stored row by
url_hash, no second row is created (the row count is unchanged), the call
answers inserted=false with the existing id, the colliding row keeps every
attribution field of the first insert (the only changed column is metadata),
and its metadata becomes the shallow key union in which incoming keys win:
lookup of any key answers the incoming value when present, else the stored
value. -/
theorem C4_duplicate_ingest_merges (hash : String → String) (now : Nat) (db : IngestDB)
    (b : IngestBody) (r0 : RawRow)
    (hfind : db.rows.find? (fun r => r.urlHash == hash (jsTrim b.url)) = some r0) :
    (ingest hash now db b).1.inserted = false ∧
    (ingest hash now db b).1.id = some r0.id ∧
    (ingest hash now db b).2.rows.length = db.rows.length ∧
    (ingest hash now db b).2.rows.find? (fun r => r.urlHash == hash (jsTrim b.url))
      = some { r0 with metadata := jsonbConcat r0.metadata (ingestMetadata b) } ∧
    (∀ k, objLookup k (jsonbConcat r0.metadata (ingestMetadata b))
      = (objLookup k (ingestMetadata b)).or (objLookup k r0.metadata)) := by
  obtain ⟨h1, h2, h3⟩ := ingest_dup_result hash now db b r0 hfind
  exact ⟨by rw [h1], by rw [h1], h2, h3, fun k => objLookup_jsonbConcat k r0.metadata _⟩

/-- Witness for C4: the concrete duplicate submission bDupIngest against the
store dbIng holding its first insert; the merged metadata carries the incoming
key extra while the stored row keeps its attribution fields. -/
theorem C4_duplicate_ingest_merges_witness :
    (ingest (fun s => s) 3 dbIng bDupIngest).1.inserted = false ∧
    (ingest (fun s => s) 3 dbIng bDupIngest).1.id = some ingPrior.id ∧
    (ingest (fun s => s) 3 dbIng bDupIngest).2.rows.length = dbIng.rows.length ∧
    (ingest (fun s => s) 3 dbIng bDupIngest).2.rows.find?
        (fun r => r.urlHash == (fun (s : String) => s) (jsTrim bDupIngest.url))
      = some { ingPrior with
                 metadata := jsonbConcat ingPrior.metadata (ingestMetadata bDupIngest) } ∧
    objLookup "extra" (jsonbConcat ingPrior.metadata (ingestMetadata bDupIngest))
      = (objLookup "extra" (ingestMetadata bDupIngest)).or
          (objLookup "extra" ingPrior.metadata) := by
  have h := C4_duplicate_ingest_merges (fun s => s) 3 dbIng bDupIngest ingPrior rfl
  exact ⟨h.1, h.2.1, h.2.2.1, h.2.2.2.1, h.2.2.2.2 "extra"⟩

/-- CLAIM C9 (confirmed). The ingest route trims the submitted url before
computing the sha256 content address and before storing the url: starting from
an empty store, a first ingest inserts (storing the trimmed url and the hash of
the trimmed url), and a second ingest whose url differs only in surrounding
whitespace addresses the same row — it answers inserted=false with the first
call id and leaves a single row. Stated for every deterministic digest
function. -/
theorem C9_url_trimmed_dedup (hash : String → String) (now1 now2 : Nat)
    (b1 b2 : IngestBody) (h : jsTrim b1.url = jsTrim b2.url) :
    (ingest hash now1 dbIngEmpty b1).1.inserted = true ∧
    (∀ r ∈ (ingest hash now1 dbIngEmpty b1).2.rows,
       r.url = jsTrim b1.url ∧ r.urlHash = hash (jsTrim b1.url)) ∧
    (ingest hash now2 (ingest hash now1 dbIngEmpty b1).2 b2).1.inserted = false ∧
    (ingest hash now2 (ingest hash now1 dbIngEmpty b1).2 b2).1.id
      = (ingest hash now1 dbIngEmpty b1).1.id ∧
    (ingest hash now2 (ingest hash now1 dbIngEmpty b1).2 b2).2.rows.length = 1 := by
  have hstep1 : ingest hash now1 dbIngEmpty b1
      = ({ inserted := true, id := some 1 },
         { rows := [insertedRow hash now1 dbIngEmpty b1], nextId := 2 }) := rfl
  have hhash1 : (insertedRow hash now1 dbIngEmpty b1).urlHash = hash (jsTrim b1.url) := rfl
  have hfind2 : (ingest hash now1 dbIngEmpty b1).2.rows.find?
      (fun r => r.urlHash == hash (jsTrim b2.url))
      = some (insertedRow hash now1 dbIngEmpty b1) := by
    rw [hstep1]
    apply List.find?_cons_of_pos
    rw [hhash1, h]
    simp
  obtain ⟨hA, hB, _⟩ := ingest_dup_result hash now2 (ingest hash now1 dbIngEmpty b1).2 b2 _ hfind2
  refine ⟨by rw [hstep1], ?_, by rw [hA], by rw [hA, hstep1]; rfl, by rw [hB, hstep1]; rfl⟩
  intro r hr
  rw [hstep1, List.mem_singleton] at hr
  subst hr
  exact ⟨rfl, rfl⟩

/-- Witness for C9: the urls of bWs1 and bWs2 differ only in surrounding
whitespace; the first ingest inserts and the second is a duplicate of row 1. -/
theorem C9_url_trimmed_dedup_witness :
    (ingest (fun s => s) 1 dbIngEmpty bWs1).1.inserted = true ∧
    (ingest (fun s => s) 2 (ingest (fun s => s) 1 dbIngEmpty bWs1).2 bWs2).1.inserted = false ∧
    (ingest (fun s => s) 2 (ingest (fun s => s) 1 dbIngEmpty bWs1).2 bWs2).1.id
      = (ingest (fun s => s) 1 dbIngEmpty bWs1).1.id ∧
    (ingest (fun s => s) 2 (ingest (fun s => s) 1 dbIngEmpty bWs1).2 bWs2).2.rows.length = 1 := by
  have h := C9_url_trimmed_dedup (fun s => s) 1 2 bWs1 bWs2 (by decide)
  exact ⟨h.1, h.2.2.1, h.2.2.2.1, h.2.2.2.2⟩

/-- CLAIM C10 (confirmed). The metadata object every ingest call stores always
carries the posted_at key, valued body.posted_at ?? metadata.posted_at ?? null;
a call without metadata stores exactly the one-entry object with posted_at
null; and on a duplicate ingest the injected key participates in the jsonb
merge with the incoming side winning, so the stored row metadata answers the
incoming posted_at value afterwards. -/
theorem C10_posted_at_injection (hash : String → String) (now : Nat) (db : IngestDB)
    (b : IngestBody) (r0 : RawRow)
    (hfind : db.rows.find? (fun r => r.urlHash == hash (jsTrim b.url)) = some r0) :
    objLookup "posted_at" (ingestMetadata b) = some (postedAtValue b) ∧
    (incomingMetaOf b = [] →
      ingestMetadata b = [("posted_at", nullishD b.postedAt JValue.null)]) ∧
    (ingest hash now db b).2.rows.find? (fun r => r.urlHash == hash (jsTrim b.url))
      = some { r0 with metadata := jsonbConcat r0.metadata (ingestMetadata b) } ∧
    objLookup "posted_at" (jsonbConcat r0.metadata (ingestMetadata b))
      = some (postedAtValue b) := by
  have h1 : objLookup "posted_at" (ingestMetadata b) = some (postedAtValue b) :=
    objLookup_objSet_self _ _ _
  refine ⟨h1, ?_, (ingest_dup_result hash now db b r0 hfind).2.2, ?_⟩
  · intro hm
    simp [ingestMetadata, objSet, postedAtValue, hm, objLookup, nullishD]
  · rw [objLookup_jsonbConcat, h1]
    rfl

/-- Witness for C10: the no-metadata duplicate submission bNoMeta against dbIng;
the stored metadata is exactly the posted_at null object, and after the merge
the stored row answers null for posted_at, overwriting the prior value. -/
theorem C10_posted_at_injection_witness :
    objLookup "posted_at" (ingestMetadata bNoMeta) = some (postedAtValue bNoMeta) ∧
    ingestMetadata bNoMeta = [("posted_at", nullishD bNoMeta.postedAt JValue.null)] ∧
    (ingest (fun s => s) 4 dbIng bNoMeta).2.rows.find?
        (fun r => r.urlHash == (fun (s : String) => s) (jsTrim bNoMeta.url))
      = some { ingPrior with
                 metadata := jsonbConcat ingPrior.metadata (ingestMetadata bNoMeta) } ∧
    objLookup "posted_at" (jsonbConcat ingPrior.metadata (ingestMetadata bNoMeta))
      = some (postedAtValue bNoMeta) := by
  have h := C10_posted_at_injection (fun s => s) 4 dbIng bNoMeta ingPrior rfl
  exact ⟨h.1, h.2.1 rfl, h.2.2.1, h.2.2.2⟩

/-
Claims C3, C7, C8: validation and normalization inside processBatch.
-/

/-- Status writes never touch the processed_items table. -/
theorem processedFor_setProcessing (db : DB) (i j : Nat) :
    processedFor (setProcessing db i) j = processedFor db j := rfl

/-- The processed marking never touches the processed_items table. -/
theorem processedFor_markProcessed (db : DB) (i now j : Nat) :
    processedFor (markProcessed db i now) j = processedFor db j := rfl

/-- The marking writes keep the processed_items rows unchanged. -/
theorem markProcessed_processedItems (db : DB) (i now : Nat) :
    (markProcessed db i now).processedItems = db.processedItems := rfl

/-- The error write keeps the processed_items rows unchanged. -/
theorem recordFailure_processedItems (db : DB) (i : Nat) (msg : String) :
    (recordFailure db i msg).processedItems = db.processedItems := rfl

/-- When no processed row for the key exists yet, the conditional insert appends. -/
theorem insertProcessed_of_absent (db : DB) (p : ProcessedRow)
    (h : db.processedItems.find? (fun q => q.rawItemId == p.rawItemId) = none) :
    (insertProcessed db p).processedItems = db.processedItems ++ [p] := by
  have hc : ¬(db.processedItems.any fun q => q.rawItemId == p.rawItemId) = true := by
    intro hmem
    obtain ⟨q, hq, hpq⟩ := List.any_eq_true.mp hmem
    exact absurd hpq (by simpa using List.find?_eq_none.mp h q hq)
  unfold insertProcessed
  rw [if_neg hc]

/-- After the conditional insert into an absent slot, lookup answers the new row. -/
theorem processedFor_insert_self (db : DB) (p : ProcessedRow)
    (h : processedFor db p.rawItemId = none) :
    processedFor (insertProcessed db p) p.rawItemId = some p := by
  unfold processedFor
  rw [insertProcessed_of_absent db p h, List.find?_append]
  have h0 : db.processedItems.find? (fun q => q.rawItemId == p.rawItemId) = none := h
  rw [h0]
  simp [List.find?_cons_of_pos]

/-- The success path of one processBatch iteration: with a reachable fetch, a
parseable model output, a nonempty trimmed summary, exactly five raw bullets
and no pre-existing processed row, the iteration appends exactly the parameter
tuple processedRowOf to processed_items, and lookup by the raw id answers it. -/
theorem processItem_success (env : String → ItemEnv) (now : Nat) (mn : String) (db : DB)
    (row : RawRow) (out : JValue) (c : String)
    (hf : (env row.url).fetch = Except.ok c)
    (hm : (env row.url).modelCall = Except.ok out)
    (hs : summaryOf out ≠ "")
    (hb : (rawBulletsOf out).length = 5)
    (hnew : processedFor db row.id = none) :
    (processItem env now mn db row).1.processedItems
      = db.processedItems ++ [processedRowOf mn row.id (jsToLower row.vertical) row.url out] ∧
    processedFor (processItem env now mn db row).1 row.id
      = some (processedRowOf mn row.id (jsToLower row.vertical) row.url out) := by
  unfold processItem
  simp only [hf, hm]
  rw [if_neg hs, if_neg (by simp [hb])]
  constructor
  · rw [markProcessed_processedItems,
      insertProcessed_of_absent (setProcessing db row.id)
        (processedRowOf mn row.id (jsToLower row.vertical) row.url out) hnew]
    rfl
  · rw [processedFor_markProcessed]
    exact processedFor_insert_self (setProcessing db row.id)
      (processedRowOf mn row.id (jsToLower row.vertical) row.url out) hnew

/-- CLAIM C3 (amended). The persisted relevance_score is the JavaScript numeric
coercion of the model value with default 0 and no clamping at all: whenever
the model answers a numeric relevance_score q, the processed row stored for
the item carries exactly q — also when q lies outside [0,100]. -/
theorem C3_relevance_passthrough (env : String → ItemEnv) (now : Nat) (mn : String)
    (db : DB) (row : RawRow) (out : JValue) (c : String) (q : ℚ)
    (hf : (env row.url).fetch = Except.ok c)
    (hm : (env row.url).modelCall = Except.ok out)
    (hs : summaryOf out ≠ "")
    (hb : (rawBulletsOf out).length = 5)
    (hnew : processedFor db row.id = none)
    (hq : out.getField "relevance_score" = some (JValue.num q)) :
    processedFor (processItem env now mn db row).1 row.id
      = some (processedRowOf mn row.id (jsToLower row.vertical) row.url out) ∧
    (processedRowOf mn row.id (jsToLower row.vertical) row.url out).relevanceScore
      = some q := by
  refine ⟨(processItem_success env now mn db row out c hf hm hs hb hnew).2, ?_⟩
  simp [processedRowOf, hq, nullishD, jsNumber]

/-- Witness for C3: the model output out250 carries relevance_score 250 and is
otherwise valid; the processed row persisted for item 1 carries exactly 250. -/
theorem C3_relevance_passthrough_witness :
    processedFor ((processItem (envOf out250) 7 "m" dbNew rowNew).1) rowNew.id
      = some (processedRowOf "m" rowNew.id (jsToLower rowNew.vertical) rowNew.url out250) ∧
    (processedRowOf "m" rowNew.id (jsToLower rowNew.vertical) rowNew.url out250).relevanceScore
      = some 250 :=
  C3_relevance_passthrough (envOf out250) 7 "m" dbNew rowNew out250 "article content" 250
    rfl rfl (by decide) rfl rfl rfl

/-- COUNTEREXAMPLE to claim C3 as stated. The claim says the persisted
relevance_score is an integer in [0,100] with out-of-range input clamped, 250
becoming 100. Concretely: processing an item whose model output carries
relevance_score 250 persists the score 250 itself, which is outside [0,100]
and is not 100. -/
theorem C3_unclamped_250_counterexample :
    (processedFor ((processItem (envOf out250) 7 "gpt-4.1-mini" dbNew rowNew).1) 1).map
        (fun p => p.relevanceScore) = some (some 250) ∧
    ¬ ((250 : ℚ) ≤ 100) :=
  ⟨by rfl, by norm_num⟩

/-- CLAIM C7 (amended). The bullets check of processBatch compares the raw
array length with 5 and nothing else — no trimming, no leading-marker
stripping, no dropping of blank entries. Whenever the model output bullets
value has raw length other than 5 (non-arrays counting as empty), the item
fails: no processed row is inserted, the result entry reports failure, and the
item is left in status error by the unconditional error write. -/
theorem C7_raw_bullet_length_check (env : String → ItemEnv) (now : Nat) (mn : String)
    (db : DB) (row : RawRow) (out : JValue) (c : String)
    (hf : (env row.url).fetch = Except.ok c)
    (hm : (env row.url).modelCall = Except.ok out)
    (hb : (rawBulletsOf out).length ≠ 5) :
    (processItem env now mn db row).1.processedItems = db.processedItems ∧
    (processItem env now mn db row).2.ok = false ∧
    ((statusOf db row.id).isSome →
      statusOf (processItem env now mn db row).1 row.id = some Status.error) := by
  have hset : ∀ h0 : (statusOf db row.id).isSome,
      (statusOf (setProcessing db row.id) row.id).isSome := by
    intro h0
    unfold setProcessing
    rw [statusOf_updateRaw_isSome db row.id
      (fun r => { r with status := Status.processing }) (fun r => rfl)]
    exact h0
  unfold processItem
  simp only [hf, hm]
  by_cases hs : summaryOf out = ""
  · rw [if_pos hs]
    exact ⟨rfl, rfl, fun h0 => statusOf_recordFailure _ _ _ (hset h0)⟩
  · rw [if_neg hs, if_pos hb]
    exact ⟨rfl, rfl, fun h0 => statusOf_recordFailure _ _ _ (hset h0)⟩

/-- Witness for C7: the model output outBul4 has four raw bullets; processing
item 1 of dbNew inserts nothing, reports failure and leaves status error. -/
theorem C7_raw_bullet_length_check_witness :
    (processItem (envOf outBul4) 7 "m" dbNew rowNew).1.processedItems
      = dbNew.processedItems ∧
    (processItem (envOf outBul4) 7 "m" dbNew rowNew).2.ok = false ∧
    statusOf ((processItem (envOf outBul4) 7 "m" dbNew rowNew).1) rowNew.id
      = some Status.error := by
  have h := C7_raw_bullet_length_check (envOf outBul4) 7 "m" dbNew rowNew outBul4
    "article content" rfl rfl (by decide)
  exact ⟨h.1, h.2.1, h.2.2 (by decide)⟩

/-- COUNTEREXAMPLE to claim C7 as stated. The claim says an item whose bullets
reduce to a count other than 5 after trimming and leading-marker stripping is
always rejected and never persisted. Concretely: outBulEmptyEntry has five raw
bullet entries of which one trims to empty, so its count in the sense of the
claim is 4 — yet the code accepts it, persists a processed row for item 1 and
marks the item processed. -/
theorem C7_trimmed_bullets_counterexample :
    specBulletCount (rawBulletsOf outBulEmptyEntry) = 4 ∧
    (processedFor ((processItem (envOf outBulEmptyEntry) 7 "m" dbNew rowNew).1) 1).isSome ∧
    statusOf ((processItem (envOf outBulEmptyEntry) 7 "m" dbNew rowNew).1) 1
      = some Status.processed :=
  ⟨by rfl, by rfl, by rfl⟩

/-- CLAIM C8 (amended). The persisted tags value is exactly the model output
tags array, with the empty array substituted only when the field is absent or
null: no case-insensitive vocabulary matching, no dropping of unmatched
entries, no cap at 8 and no Other default occur anywhere between the model
response and the insert. -/
theorem C8_tags_passthrough (env : String → ItemEnv) (now : Nat) (mn : String)
    (db : DB) (row : RawRow) (out : JValue) (c : String) (ts : List JValue)
    (hf : (env row.url).fetch = Except.ok c)
    (hm : (env row.url).modelCall = Except.ok out)
    (hs : summaryOf out ≠ "")
    (hb : (rawBulletsOf out).length = 5)
    (hnew : processedFor db row.id = none)
    (ht : out.getField "tags" = some (JValue.arr ts)) :
    processedFor (processItem env now mn db row).1 row.id
      = some (processedRowOf mn row.id (jsToLower row.vertical) row.url out) ∧
    (processedRowOf mn row.id (jsToLower row.vertical) row.url out).tags
      = JValue.arr ts := by
  refine ⟨(processItem_success env now mn db row out c hf hm hs hb hnew).2, ?_⟩
  simp [processedRowOf, ht, nullishD]

/-- Witness for C8: the model output outTagsBanana carries the single
out-of-vocabulary tag banana; the processed row persisted for item 1 carries
it verbatim. -/
theorem C8_tags_passthrough_witness :
    processedFor ((processItem (envOf outTagsBanana) 7 "m" dbNew rowNew).1) rowNew.id
      = some (processedRowOf "m" rowNew.id (jsToLower rowNew.vertical) rowNew.url outTagsBanana) ∧
    (processedRowOf "m" rowNew.id (jsToLower rowNew.vertical) rowNew.url outTagsBanana).tags
      = JValue.arr [JValue.str "banana"] :=
  C8_tags_passthrough (envOf outTagsBanana) 7 "m" dbNew rowNew outTagsBanana
    "article content" [JValue.str "banana"] rfl rfl (by decide) rfl rfl rfl

/-- COUNTEREXAMPLE to claim C8 as stated. The claim says stored tags are always
a nonempty selection of 1..8 vocabulary entries, defaulting to Other when
nothing matches. Concretely: a model output with an empty tags array is
persisted with tags exactly the empty array, which the claimed invariant
rejects. -/
theorem C8_empty_tags_counterexample :
    (processedFor ((processItem (envOf outTagsEmpty) 7 "m" dbNew rowNew).1) 1).map
        (fun p => p.tags) = some (JValue.arr []) ∧
    ¬ specTagsValid (JValue.arr []) :=
  ⟨by rfl, by simp [specTagsValid]⟩

/-
Claim C1: batch claiming under concurrency.
-/

/-- The conditional insert never touches the raw_items table. -/
theorem insertProcessed_rawItems (db : DB) (p : ProcessedRow) :
    (insertProcessed db p).rawItems = db.rawItems := by
  unfold insertProcessed
  split <;> rfl

/-- The raw_items shape of the processing write. -/
theorem setProcessing_rawItems (db : DB) (i : Nat) :
    (setProcessing db i).rawItems
      = updateRaw db.rawItems i (fun r => { r with status := Status.processing }) := rfl

/-- The raw_items shape of the error write. -/
theorem recordFailure_rawItems (db : DB) (i : Nat) (msg : String) :
    (recordFailure db i msg).rawItems
      = updateRaw db.rawItems i
          (fun r => { r with status := Status.error, lastError := some msg }) := rfl

/-- The raw_items shape of the processed write. -/
theorem markProcessed_rawItems (db : DB) (i now : Nat) :
    (markProcessed db i now).rawItems
      = updateRaw db.rawItems i
          (fun r =>
            { r with status := Status.processed, processedAt := some now, lastError := none })
      := rfl

/-- Membership through two successive conditional row updates on the same id:
every surviving row descends from a stored row with the same id, unchanged
when its id differs, and rewritten by the two update functions when it
matches. -/
theorem mem_two_updates (l : List RawRow) (i : Nat) (f1 f2 : RawRow → RawRow)
    (h1 : ∀ r, (f1 r).id = r.id) (h2 : ∀ r, (f2 r).id = r.id) (r' : RawRow)
    (h : r' ∈ updateRaw (updateRaw l i f1) i f2) :
    ∃ r0, r0 ∈ l ∧ r'.id = r0.id ∧
      (r'.id ≠ i → r' = r0) ∧ (r'.id = i → r' = f2 (f1 r0)) := by
  unfold updateRaw at h
  obtain ⟨r1, hr1, hr1eq⟩ := List.mem_map.mp h
  obtain ⟨r0, hr0, hr0eq⟩ := List.mem_map.mp hr1
  by_cases hc : r0.id = i
  · have e1 : r1 = f1 r0 := by rw [← hr0eq, if_pos hc]
    have hr1id : r1.id = i := by rw [e1, h1, hc]
    have e2 : r' = f2 r1 := by rw [← hr1eq, if_pos hr1id]
    have hfid : r'.id = r0.id := by rw [e2, h2, e1, h1]
    refine ⟨r0, hr0, hfid, ?_, ?_⟩
    · intro hne
      exact absurd (by rw [hfid, hc]) hne
    · intro _
      rw [e2, e1]
  · have e1 : r1 = r0 := by rw [← hr0eq, if_neg hc]
    have hr1id : ¬ r1.id = i := by rw [e1]; exact hc
    have e2 : r' = r1 := by rw [← hr1eq, if_neg hr1id]
    have hfid : r'.id = r0.id := by rw [e2, e1]
    refine ⟨r0, hr0, hfid, ?_, ?_⟩
    · intro _
      rw [e2, e1]
    · intro hi
      exact absurd (by rw [← hfid]; exact hi) hc

/-- Every path of one processBatch iteration rewrites exactly the rows carrying
the picked id, and always to a status other than new (error on every failure
path, processed on the success path); rows with other ids are untouched. -/
theorem processItem_raw_mem (env : String → ItemEnv) (now : Nat) (mn : String) (db : DB)
    (row : RawRow) (r' : RawRow)
    (h : r' ∈ (processItem env now mn db row).1.rawItems) :
    ∃ r0, r0 ∈ db.rawItems ∧ r'.id = r0.id ∧
      (r'.id ≠ row.id → r' = r0) ∧ (r'.id = row.id → r'.status ≠ Status.new) := by
  unfold processItem at h
  cases hf : (env row.url).fetch with
  | error msg =>
    simp only [hf] at h
    rw [show (recordFailure (setProcessing db row.id) row.id msg).rawItems
        = updateRaw (setProcessing db row.id).rawItems row.id
            (fun r => { r with status := Status.error, lastError := some msg }) from rfl,
      setProcessing_rawItems] at h
    obtain ⟨r0, hr0, hid, hne, hpick⟩ := mem_two_updates db.rawItems row.id
      (fun r => { r with status := Status.processing })
      (fun r => { r with status := Status.error, lastError := some msg })
      (fun r => rfl) (fun r => rfl) r' h
    exact ⟨r0, hr0, hid, hne, fun hi => by rw [hpick hi]; simp⟩
  | ok c =>
    simp only [hf] at h
    cases hm : (env row.url).modelCall with
    | error msg =>
      simp only [hm] at h
      rw [show (recordFailure (setProcessing db row.id) row.id msg).rawItems
          = updateRaw (setProcessing db row.id).rawItems row.id
              (fun r => { r with status := Status.error, lastError := some msg }) from rfl,
        setProcessing_rawItems] at h
      obtain ⟨r0, hr0, hid, hne, hpick⟩ := mem_two_updates db.rawItems row.id
        (fun r => { r with status := Status.processing })
        (fun r => { r with status := Status.error, lastError := some msg })
        (fun r => rfl) (fun r => rfl) r' h
      exact ⟨r0, hr0, hid, hne, fun hi => by rw [hpick hi]; simp⟩
    | ok out =>
      simp only [hm] at h
      by_cases hs : summaryOf out = ""
      · rw [if_pos hs] at h
        rw [show (recordFailure (setProcessing db row.id) row.id
              "Model output missing summary_1").rawItems
            = updateRaw (setProcessing db row.id).rawItems row.id
                (fun r =>
                  { r with status := Status.error, lastError := some "Model output missing summary_1" })
            from rfl,
          setProcessing_rawItems] at h
        obtain ⟨r0, hr0, hid, hne, hpick⟩ := mem_two_updates db.rawItems row.id
          (fun r => { r with status := Status.processing })
          (fun r =>
            { r with status := Status.error, lastError := some "Model output missing summary_1" })
          (fun r => rfl) (fun r => rfl) r' h
        exact ⟨r0, hr0, hid, hne, fun hi => by rw [hpick hi]; simp⟩
      · rw [if_neg hs] at h
        by_cases hb : (rawBulletsOf out).length = 5
        · rw [if_neg (by simp [hb])] at h
          rw [markProcessed_rawItems, insertProcessed_rawItems, setProcessing_rawItems] at h
          obtain ⟨r0, hr0, hid, hne, hpick⟩ := mem_two_updates db.rawItems row.id
            (fun r => { r with status := Status.processing })
            (fun r =>
              { r with status := Status.processed, processedAt := some now, lastError := none })
            (fun r => rfl) (fun r => rfl) r' h
          exact ⟨r0, hr0, hid, hne, fun hi => by rw [hpick hi]; simp⟩
        · rw [if_pos hb] at h
          rw [show (recordFailure (setProcessing db row.id) row.id
                "Model output bullets must be exactly 5").rawItems
              = updateRaw (setProcessing db row.id).rawItems row.id
                  (fun r =>
                    { r with status := Status.error, lastError := some "Model output bullets must be exactly 5" })
              from rfl,
            setProcessing_rawItems] at h
          obtain ⟨r0, hr0, hid, hne, hpick⟩ := mem_two_updates db.rawItems row.id
            (fun r => { r with status := Status.processing })
            (fun r =>
              { r with status := Status.error, lastError := some "Model output bullets must be exactly 5" })
            (fun r => rfl) (fun r => rfl) r' h
          exact ⟨r0, hr0, hid, hne, fun hi => by rw [hpick hi]; simp⟩

/-- Running the per-item loop over a list of picked rows: every surviving raw
row descends from a row of the initial table with the same id; rows whose id
was not picked are unchanged, and rows whose id was picked no longer carry
status new. -/
theorem runItems_raw_mem (env : String → ItemEnv) (now : Nat) (mn : String) :
    ∀ (rows : List RawRow) (db : DB) (r' : RawRow),
      r' ∈ (runItems env now mn db rows).rawItems →
      ∃ r0, r0 ∈ db.rawItems ∧ r'.id = r0.id ∧
        (r'.id ∉ rows.map (fun r => r.id) → r' = r0) ∧
        (r'.id ∈ rows.map (fun r => r.id) → r'.status ≠ Status.new) := by
  intro rows
  induction rows with
  | nil =>
    intro db r' h
    exact ⟨r', h, rfl, fun _ => rfl, by simp⟩
  | cons row rest ih =>
    intro db r' h
    obtain ⟨r1, hr1mem, hid1, hout1, hin1⟩ := ih (processItem env now mn db row).1 r' h
    obtain ⟨r0, hr0mem, hid0, hne0, hst0⟩ := processItem_raw_mem env now mn db row r1 hr1mem
    refine ⟨r0, hr0mem, by rw [hid1, hid0], ?_, ?_⟩
    · intro hnot
      have hnrest : r'.id ∉ rest.map (fun r => r.id) := fun hc =>
        hnot (by rw [List.map_cons]; exact List.mem_cons_of_mem _ hc)
      have hr1e : r' = r1 := hout1 hnrest
      have hnrow : r'.id ≠ row.id := fun hc =>
        hnot (by rw [List.map_cons, hc]; exact List.mem_cons_self _ _)
      rw [hr1e]
      exact hne0 (fun hc => hnrow (by rw [hid1, hc]))
    · intro hmem
      by_cases hrest : r'.id ∈ rest.map (fun r => r.id)
      · exact hin1 hrest
      · have hr1e : r' = r1 := hout1 hrest
        have hrow : r'.id = row.id := by
          rcases List.mem_cons.mp (by rw [List.map_cons] at hmem; exact hmem) with hx | hx
          · exact hx
          · exact absurd hx hrest
        rw [hr1e]
        exact hst0 (by rw [← hid1, hrow])

/-- Membership through the insertion step of the created_at sort. -/
theorem mem_insertByCreated {a r : RawRow} :
    ∀ {l : List RawRow}, a ∈ insertByCreated r l → a = r ∨ a ∈ l := by
  intro l
  induction l with
  | nil =>
    intro h
    rcases List.mem_singleton.mp h with h1
    exact Or.inl h1
  | cons x xs ih =>
    intro h
    unfold insertByCreated at h
    by_cases hc : r.createdAt < x.createdAt
    · rw [if_pos hc] at h
      rcases List.mem_cons.mp h with h1 | h1
      · exact Or.inl h1
      · exact Or.inr h1
    · rw [if_neg hc] at h
      rcases List.mem_cons.mp h with h1 | h1
      · exact Or.inr (by rw [h1]; exact List.mem_cons_self _ _)
      · rcases ih h1 with h2 | h2
        · exact Or.inl h2
        · exact Or.inr (List.mem_cons_of_mem _ h2)

/-- The created_at sort never invents rows. -/
theorem mem_sortByCreated {a : RawRow} :
    ∀ {l : List RawRow}, a ∈ sortByCreated l → a ∈ l := by
  intro l
  induction l with
  | nil => intro h; exact absurd h (by simp [sortByCreated])
  | cons x xs ih =>
    intro h
    have h1 : a ∈ insertByCreated x (sortByCreated xs) := h
    rcases mem_insertByCreated h1 with h2 | h2
    · rw [h2]; exact List.mem_cons_self _ _
    · exact List.mem_cons_of_mem _ (ih h2)

/-- Every row the batch select returns is a stored row in status new. -/
theorem mem_selectNewRows {r : RawRow} {db : DB} {lim : Nat}
    (h : r ∈ selectNewRows db lim) : r ∈ db.rawItems ∧ r.status = Status.new := by
  unfold selectNewRows at h
  have h1 := List.take_subset _ _ h
  have h2 := mem_sortByCreated h1
  have h3 := List.mem_filter.mp h2
  exact ⟨h3.1, by simpa using h3.2⟩

/-- The picked list of a batch run is the select on the entry state. -/
theorem processBatch_picked (env : String → ItemEnv) (now : Nat) (mn : String) (db : DB)
    (lim : Nat) : (processBatch env now mn db lim).picked = selectNewRows db lim := rfl

/-- The database component of the batch fold ignores the results accumulator. -/
theorem batchFold_db (env : String → ItemEnv) (now : Nat) (mn : String) :
    ∀ (rows : List RawRow) (db : DB) (acc : List ItemResult),
      (rows.foldl (batchStep env now mn) (db, acc)).1 = runItems env now mn db rows := by
  intro rows
  induction rows with
  | nil => intro db acc; rfl
  | cons row rest ih =>
    intro db acc
    rw [List.foldl_cons]
    have hstep : batchStep env now mn (db, acc) row
        = ((processItem env now mn db row).1, acc ++ [(processItem env now mn db row).2]) := rfl
    rw [hstep, ih]
    rfl

/-- The final database of a batch run is the per-item fold over the picked rows. -/
theorem processBatch_db (env : String → ItemEnv) (now : Nat) (mn : String) (db : DB)
    (lim : Nat) :
    (processBatch env now mn db lim).db = runItems env now mn db (selectNewRows db lim) :=
  batchFold_db env now mn (selectNewRows db lim) db []

/-- CLAIM C1 (amended). Disjointness holds for serialized claim calls: once one
processBatch run has completed, every item it picked has left status new (each
picked id ends in processed or error), so a second processBatch run on the
resulting state never returns any item of the first batch. The as-stated claim
about concurrently-interleaved calls fails — see the companion counterexample:
the select takes no lock and the new-to-processing transition is a separate
later statement, so overlapping in-flight calls can pick the same rows. -/
theorem C1_serialized_claims_disjoint (env1 env2 : String → ItemEnv) (now1 now2 : Nat)
    (mn1 mn2 : String) (db : DB) (lim1 lim2 : Nat) (i : Nat)
    (h1 : i ∈ (processBatch env1 now1 mn1 db lim1).picked.map (fun r => r.id)) :
    i ∉ (processBatch env2 now2 mn2 (processBatch env1 now1 mn1 db lim1).db lim2).picked.map
        (fun r => r.id) := by
  intro h2
  rw [processBatch_picked] at h1 h2
  rw [processBatch_db] at h2
  obtain ⟨r2, hr2sel, hr2id⟩ := List.mem_map.mp h2
  obtain ⟨hr2mem, hr2new⟩ := mem_selectNewRows hr2sel
  obtain ⟨r0, hr0, hid, hout, hin⟩ :=
    runItems_raw_mem env1 now1 mn1 (selectNewRows db lim1) db r2 hr2mem
  exact hin (by rw [hr2id]; exact h1) hr2new

/-- Witness for C1 (amended): with one claimable row, the first serialized run
picks item 1 and the second run picks nothing containing it. -/
theorem C1_serialized_claims_disjoint_witness :
    1 ∈ (processBatch (envOf out250) 7 "m" dbNew 10).picked.map (fun r => r.id) ∧
    1 ∉ (processBatch (envOf out250) 8 "m"
          (processBatch (envOf out250) 7 "m" dbNew 10).db 10).picked.map (fun r => r.id) :=
  ⟨by decide,
   C1_serialized_claims_disjoint (envOf out250) (envOf out250) 7 8 "m" "m" dbNew 10 10 1
     (by decide)⟩

/-- COUNTEREXAMPLE to claim C1 as stated. The claim requires every pair of
concurrently-invoked claim calls to return disjoint item sets. The select that
opens processBatch is its first database statement, reads only status, and
takes no row locks and no for-update clause, so the schedule in which both
in-flight calls run their select before either runs its first update is
admissible; concurrentSelectFirstPicks computes the two picked-id lists under
that schedule. Concretely: on a store with the single new item 1, both calls
pick item 1, so the returned sets overlap and the new-to-processing transition
is not atomic with the selection. -/
theorem C1_concurrent_overlap_counterexample :
    (concurrentSelectFirstPicks dbNew 5 5).1 = [1] ∧
    (concurrentSelectFirstPicks dbNew 5 5).2 = [1] ∧
    1 ∈ (concurrentSelectFirstPicks dbNew 5 5).1 ∧
    1 ∈ (concurrentSelectFirstPicks dbNew 5 5).2 := by
  exact ⟨by decide, by decide, by decide, by decide⟩

/-
Claim C5: atomicity and idempotence of the report transaction.
-/

/-- Membership through the conditional seen-key fold: a pair is recorded after
the fold exactly when it was recorded before or it is the inserted source
paired with a submitted key. -/
theorem seenFold_mem (sid : Nat) (p : Nat × String) :
    ∀ (ks : List String) (acc : List (Nat × String)),
      (p ∈ ks.foldl (fun a k => if (sid, k) ∈ a then a else a ++ [(sid, k)]) acc)
        ↔ (p ∈ acc ∨ (p.1 = sid ∧ p.2 ∈ ks)) := by
  intro ks
  induction ks with
  | nil => intro acc; simp
  | cons k rest ih =>
    intro acc
    rw [List.foldl_cons]
    by_cases hm : (sid, k) ∈ acc
    · rw [if_pos hm, ih]
      constructor
      · rintro (h1 | ⟨h2, h3⟩)
        · exact Or.inl h1
        · exact Or.inr ⟨h2, List.mem_cons_of_mem _ h3⟩
      · rintro (h1 | ⟨h2, h3⟩)
        · exact Or.inl h1
        · rcases List.mem_cons.mp h3 with h4 | h4
          · refine Or.inl ?_
            have : p = (sid, k) := Prod.ext h2 h4
            rw [this]
            exact hm
          · exact Or.inr ⟨h2, h4⟩
    · rw [if_neg hm, ih]
      constructor
      · rintro (h1 | ⟨h2, h3⟩)
        · rcases List.mem_append.mp h1 with h4 | h4
          · exact Or.inl h4
          · refine Or.inr ?_
            have : p = (sid, k) := List.mem_singleton.mp h4
            rw [this]
            exact ⟨rfl, List.mem_cons_self _ _⟩
        · exact Or.inr ⟨h2, List.mem_cons_of_mem _ h3⟩
      · rintro (h1 | ⟨h2, h3⟩)
        · exact Or.inl (List.mem_append.mpr (Or.inl h1))
        · rcases List.mem_cons.mp h3 with h4 | h4
          · refine Or.inl (List.mem_append.mpr (Or.inr ?_))
            rw [List.mem_singleton]
            exact Prod.ext h2 h4
          · exact Or.inr ⟨h2, h4⟩

/-- Count through the conditional seen-key fold: an already-recorded pair keeps
its count, an unrecorded one ends with count one exactly when its key was
submitted. -/
theorem seenFold_count (sid : Nat) (k : String) :
    ∀ (ks : List String) (acc : List (Nat × String)),
      ((ks.foldl (fun a k1 => if (sid, k1) ∈ a then a else a ++ [(sid, k1)]) acc).count
          (sid, k))
        = if (sid, k) ∈ acc then acc.count (sid, k) else (if k ∈ ks then 1 else 0) := by
  intro ks
  induction ks with
  | nil =>
    intro acc
    by_cases hm : (sid, k) ∈ acc
    · rw [if_pos hm]
      rfl
    · rw [if_neg hm]
      rw [if_neg (by simp)]
      exact List.count_eq_zero.mpr hm
  | cons k1 rest ih =>
    intro acc
    rw [List.foldl_cons]
    by_cases hm1 : (sid, k1) ∈ acc
    · rw [if_pos hm1, ih]
      by_cases hm : (sid, k) ∈ acc
      · rw [if_pos hm, if_pos hm]
      · rw [if_neg hm, if_neg hm]
        have hk : ¬ k = k1 := fun hc => hm (by rw [hc]; exact hm1)
        simp [List.mem_cons, hk]
    · rw [if_neg hm1, ih]
      by_cases hk : k = k1
      · subst hk
        have hmem : (sid, k) ∈ acc ++ [(sid, k)] := List.mem_append.mpr (Or.inr (by simp))
        rw [if_pos hmem, if_neg hm1, if_pos (List.mem_cons_self _ _)]
        rw [List.count_append]
        rw [List.count_eq_zero.mpr hm1]
        simp
      · have hpair : ¬ ((sid, k) = (sid, k1)) := fun hc => hk (congrArg Prod.snd hc)
        have hmem_iff : ((sid, k) ∈ acc ++ [(sid, k1)]) ↔ ((sid, k) ∈ acc) := by
          rw [List.mem_append, List.mem_singleton]
          simp [hpair]
        by_cases hm : (sid, k) ∈ acc
        · rw [if_pos (hmem_iff.mpr hm), if_pos hm]
          rw [List.count_append]
          have : List.count (sid, k) [(sid, k1)] = 0 := by
            rw [List.count_eq_zero]
            simp [hpair]
          omega
        · rw [if_neg (fun hc => hm (hmem_iff.mp hc)), if_neg hm]
          simp [List.mem_cons, hk]

/-- CLAIM C5 (confirmed). The report call is one atomic unit and its seen-key
insert is idempotent. First conjunct: when either inner statement faults, the
transaction rolls back and the state is unchanged — in particular a failing
bookkeeping update retains no seen-keys from the call. Second conjunct: two
fault-free reports for the same source with overlapping key lists record every
fresh submitted key exactly once. -/
theorem C5_report_atomic_idempotent :
    (∀ (fault : TxFault) (now : Nat) (db : ReportDB) (b : ReportBody),
       fault.updateFails = true ∨ fault.insertFails = true →
       (report fault now db b).2 = db) ∧
    (∀ (now1 now2 : Nat) (db : ReportDB) (b1 b2 : ReportBody) (k : String),
       b2.sourceId = b1.sourceId →
       (b1.sourceId, k) ∉ db.seen →
       (k ∈ normalizeSeenKeys b1.seenKeys ∨ k ∈ normalizeSeenKeys b2.seenKeys) →
       ((report noFault now2 (report noFault now1 db b1).2 b2).2).seen.count
           (b1.sourceId, k) = 1) := by
  constructor
  · intro fault now db b hfail
    unfold report
    cases hu : fault.updateFails with
    | true => rw [if_pos rfl]
    | false =>
      rw [if_neg (by simp)]
      rcases hfail with h1 | h1
      · rw [hu] at h1; exact absurd h1 (by simp)
      · rw [if_pos h1]
  · intro now1 now2 db b1 b2 k hsid hnot hk
    have hrep : ∀ (now : Nat) (db1 : ReportDB) (b : ReportBody),
        (report noFault now db1 b).2
          = insertSeenKeys
              (updateSource db1 b.sourceId now b.etag b.lastModified b.lastError)
              b.sourceId (normalizeSeenKeys b.seenKeys) := fun _ _ _ => rfl
    rw [hrep, hrep, hsid]
    have hstep2 : (insertSeenKeys
        (updateSource
          (insertSeenKeys
            (updateSource db b1.sourceId now1 b1.etag b1.lastModified b1.lastError)
            b1.sourceId (normalizeSeenKeys b1.seenKeys))
          b1.sourceId now2 b2.etag b2.lastModified b2.lastError)
        b1.sourceId (normalizeSeenKeys b2.seenKeys)).seen
        = (normalizeSeenKeys b2.seenKeys).foldl
            (fun a k1 => if (b1.sourceId, k1) ∈ a then a else a ++ [(b1.sourceId, k1)])
            ((insertSeenKeys
              (updateSource db b1.sourceId now1 b1.etag b1.lastModified b1.lastError)
              b1.sourceId (normalizeSeenKeys b1.seenKeys)).seen) := rfl
    have hstep1 : (insertSeenKeys
        (updateSource db b1.sourceId now1 b1.etag b1.lastModified b1.lastError)
        b1.sourceId (normalizeSeenKeys b1.seenKeys)).seen
        = (normalizeSeenKeys b1.seenKeys).foldl
            (fun a k1 => if (b1.sourceId, k1) ∈ a then a else a ++ [(b1.sourceId, k1)])
            db.seen := rfl
    rw [hstep2, seenFold_count, hstep1]
    by_cases h1 : k ∈ normalizeSeenKeys b1.seenKeys
    · have hmem := (seenFold_mem b1.sourceId (b1.sourceId, k)
        (normalizeSeenKeys b1.seenKeys) db.seen).mpr (Or.inr ⟨rfl, h1⟩)
      rw [if_pos hmem, seenFold_count, if_neg hnot, if_pos h1]
    · have hmem : (b1.sourceId, k) ∉ (normalizeSeenKeys b1.seenKeys).foldl
          (fun a k1 => if (b1.sourceId, k1) ∈ a then a else a ++ [(b1.sourceId, k1)])
          db.seen := by
        intro hc
        rcases (seenFold_mem b1.sourceId (b1.sourceId, k)
            (normalizeSeenKeys b1.seenKeys) db.seen).mp hc with hc1 | ⟨_, hc1⟩
        · exact hnot hc1
        · exact h1 hc1
      have h2 : k ∈ normalizeSeenKeys b2.seenKeys := hk.resolve_left h1
      rw [if_neg hmem, if_pos h2]

/-- Witness for C5: a faulted report against the empty store leaves it
unchanged, and two fault-free reports submitting the overlapping key lists
a,b,c then b,c,d record the fresh key b exactly once. -/
theorem C5_report_atomic_idempotent_witness :
    (report { updateFails := true, insertFails := false } 1 dbRepEmpty (repBody ["a"])).2
      = dbRepEmpty ∧
    ((report noFault 2 (report noFault 1 dbRepEmpty (repBody ["a", "b", "c"])).2
        (repBody ["b", "c", "d"])).2).seen.count ((repBody ["a", "b", "c"]).sourceId, "b")
      = 1 :=
  ⟨C5_report_atomic_idempotent.1 { updateFails := true, insertFails := false } 1 dbRepEmpty
      (repBody ["a"]) (Or.inl rfl),
   C5_report_atomic_idempotent.2 1 2 dbRepEmpty (repBody ["a", "b", "c"])
      (repBody ["b", "c", "d"]) "b" rfl (by decide) (Or.inl (by decide))⟩

end Cockpit
